import Mathlib

/-!
Shallow embedding of the "Second Best!" game solver
(repository `WannesMalfait/Second-Best--Solver`).

The board state lives in two 64-bit bitboards (`played_spots`, `our_spots`)
laid out as 16 columns of 4 bits (8 real stacks, doubled to remove the
circular wrap-around; bit 3 of each column is a guard bit).  Machine
integers (`u64`, `u8`, `i16`, `isize`) are modelled as `Nat`/`Int` with
explicit wrapping (`% 2^64`, …) exactly where the Rust operation wraps.
The fixed-size `[Option<Bitboard>; 255]` history arrays are modelled as
total functions `Nat → Option Nat`; a Rust out-of-bounds index or
`unwrap` of `None` panics, which the model totalizes with `getD 0` — all
theorems below stay inside the panic-free region.
-/

namespace SecondBest

/-- Wrap a natural number to 64 bits, as every Rust `u64` arithmetic
operation (`+`, `<<`) does implicitly by discarding overflowing bits. -/
def wrap64 (x : Nat) : Nat := x % 2 ^ 64

/-- Bitwise complement on 64 bits: Rust `!x` on a `u64`. -/
def not64 (x : Nat) : Nat := x ^^^ (2 ^ 64 - 1)

/-- Wrapping 64-bit subtraction: Rust `a - b` on `u64` (never underflows
at the call sites below, but the model wraps like the machine would). -/
def sub64 (a b : Nat) : Nat := (a + (2 ^ 64 - b % 2 ^ 64)) % 2 ^ 64

/-- A bitboard is a 64 bit integer (`pub type Bitboard = u64`). -/
abbrev Bitboard := Nat

/-- Update one slot of a move array (Rust `array[i] = v`). -/
def updF (f : Nat → Option Bitboard) (i : Nat) (v : Option Bitboard) :
    Nat → Option Bitboard :=
  fun j => if j = i then v else f j

/-- The `Position` struct of `src/position.rs`: the two bitboards, the
move counter, and the two per-ply arrays of optional stone moves. -/
@[ext]
structure Position where
  played_spots : Bitboard
  our_spots : Bitboard
  num_moves : Nat
  move_history : Nat → Option Bitboard
  banned_moves : Nat → Option Bitboard

namespace Position

/-- `Position::NUM_STACKS`. -/
def NUM_STACKS : Nat := 8
/-- `Position::STACK_HEIGHT`. -/
def STACK_HEIGHT : Nat := 3
/-- `Position::MAX_MOVES`. -/
def MAX_MOVES : Nat := 255
/-- `Position::RIGHT`. -/
def RIGHT : Nat := 1
/-- `Position::LEFT` (`NUM_STACKS - 1`). -/
def LEFT : Nat := 7
/-- `Position::OPPOSITE` (`NUM_STACKS / 2`). -/
def OPPOSITE : Nat := 4

/-- `Position::BOTTOM`: a 1 in the bottom row of each of the 16 columns,
built exactly as the recursive `const fn bottom` does. -/
def BOTTOM : Bitboard :=
  (List.range 16).foldl (fun bb col => bb ||| (1 <<< ((STACK_HEIGHT + 1) * col))) 0

/-- `Position::BOTTOM_FOUR`: a 1 on the bottom of the first four columns. -/
def BOTTOM_FOUR : Bitboard :=
  1 ||| (1 <<< (STACK_HEIGHT + 1)) ||| (1 <<< ((STACK_HEIGHT + 1) * 2)) |||
    (1 <<< ((STACK_HEIGHT + 1) * 3))

/-- `Position::column_mask`: the three data bits of column `col` in both
copies of the board.  The source table sets `masks[col] = masks[col + 8]`,
hence the `% 8`. -/
def column_mask (col : Nat) : Bitboard :=
  (7 <<< ((STACK_HEIGHT + 1) * (col % NUM_STACKS))) |||
    (7 <<< ((STACK_HEIGHT + 1) * (col % NUM_STACKS + NUM_STACKS)))

/-- `Position::column_bottom_mask`. -/
def column_bottom_mask (col : Nat) : Bitboard :=
  1 <<< ((STACK_HEIGHT + 1) * col)

/-- `Position::default()`: the empty board. -/
def default : Position :=
  { played_spots := 0
    our_spots := 0
    num_moves := 0
    move_history := fun _ => none
    banned_moves := fun _ => none }

/-- `free_spots`: the empty spot on top of each non-full stack, computed
as `BOTTOM + played_spots` (the carry runs up each column and stops at
the guard bit). -/
def free_spots (p : Position) : Bitboard :=
  wrap64 (BOTTOM + p.played_spots)

/-- `top_spots`: the highest occupied cell of each stack. -/
def top_spots (p : Position) : Bitboard :=
  p.played_spots ^^^ ((p.played_spots >>> 1) &&& p.played_spots)

/-- `controlled_stacks`: a 1 on the bottom row of every column whose top
stone belongs to the given side. -/
def controlled_stacks (p : Position) (us : Bool) : Bitboard :=
  let player_stones := if us then p.our_spots else p.played_spots ^^^ p.our_spots
  let player_stones := player_stones &&& p.top_spots
  (player_stones &&& BOTTOM) ||| ((player_stones >>> 1) &&& BOTTOM) |||
    ((player_stones >>> 2) &&& BOTTOM)

/-- `controlled_columns`: whole-column masks of the controlled stacks,
computed by the borrow trick `(BOTTOM << STACK_HEIGHT) - controlled`. -/
def controlled_columns (p : Position) (us : Bool) : Bitboard :=
  sub64 (wrap64 (BOTTOM <<< STACK_HEIGHT)) (p.controlled_stacks us)

/-- `from_spots`: a 1 on the top stone of every stack controlled by the
given side. -/
def from_spots (p : Position) (us : Bool) : Bitboard :=
  p.top_spots &&& p.controlled_columns us

/-- `free_columns`: a 1 on the bottom of every stack that is not full. -/
def free_columns (p : Position) : Bitboard :=
  BOTTOM &&& not64 (p.played_spots >>> 2)

/-- `vertical_alignment_spots`: free spots with two of our stones
directly beneath them. -/
def vertical_alignment_spots (p : Position) : Bitboard :=
  wrap64 (p.our_spots <<< 1) &&& wrap64 (p.our_spots <<< 2) &&& p.free_spots

/-- `banned_move`: the banned stone move of the current position, if a
"Second Best!" is pending (`banned_moves[num_moves + 1]`). -/
def banned_move (p : Position) : Option Bitboard :=
  p.banned_moves (p.num_moves + 1)

/-- `is_second_phase`: all 16 stones have been placed. -/
def is_second_phase (p : Position) : Bool :=
  decide (2 * 8 ≤ p.num_moves)

/-- `valid_adjacent`: the "to" stack is left, right or opposite of the
"from" stack. -/
def valid_adjacent (f t : Nat) : Bool :=
  ((f + RIGHT) % NUM_STACKS == t) || ((f + OPPOSITE) % NUM_STACKS == t) ||
    ((f + LEFT) % NUM_STACKS == t)

/-- `is_move_banned`: the move equals the pending banned move. -/
def is_move_banned (p : Position) (smove : Bitboard) : Bool :=
  p.banned_moves (p.num_moves + 1) == some smove

/-- `phase_one_stone_move`: the bitboard of a placement onto stack `to`. -/
def phase_one_stone_move (p : Position) (t : Nat) : Bitboard :=
  column_mask t &&& p.free_spots

/-- `stone_move`: the XOR-delta bitboard of a stone move (destination
free spot, plus the source top stone in the second phase). -/
def stone_move (p : Position) (f : Option Nat) (t : Nat) : Bitboard :=
  let bb := p.phase_one_stone_move t
  match f with
  | some f => bb ||| (column_mask f &&& p.top_spots)
  | none => bb

/-- `can_second_best`: a move has been played, and no ban is recorded for
this turn or the previous one. -/
def can_second_best (p : Position) : Bool :=
  decide (0 < p.num_moves) && (p.banned_moves p.num_moves).isNone &&
    (p.banned_moves (p.num_moves + 1)).isNone

/-- `make_stone_move`: flip sides (`our ^= played`), apply the XOR-delta,
bump the counter and record the move in the history. -/
def make_stone_move (p : Position) (smove : Bitboard) : Position :=
  { played_spots := p.played_spots ^^^ smove
    our_spots := p.our_spots ^^^ p.played_spots
    num_moves := p.num_moves + 1
    move_history := updF p.move_history (p.num_moves + 1) (some smove)
    banned_moves := p.banned_moves }

/-- `unmake_stone_move`: pop the last stone move and revert the two
XOR updates.  (Rust panics when `num_moves == 0` or the history slot is
empty; the model totalizes those with `getD 0` / saturating `- 1`.) -/
def unmake_stone_move (p : Position) : Position :=
  let last_move := (p.move_history p.num_moves).getD 0
  let played := p.played_spots ^^^ last_move
  { played_spots := played
    our_spots := p.our_spots ^^^ played
    num_moves := p.num_moves - 1
    move_history := updF p.move_history p.num_moves none
    banned_moves := updF p.banned_moves (p.num_moves + 1) none }

/-- `second_best`: undo the last stone move and record it as banned.
The source requires `can_second_best()`. -/
def second_best (p : Position) : Position :=
  let last_move := (p.move_history p.num_moves).getD 0
  let p' := p.unmake_stone_move
  { p' with banned_moves := updF p'.banned_moves (p'.num_moves + 1) (some last_move) }

/-- `undo_second_best`: clear the pending ban and replay the banned
stone move.  The source requires a pending banned move. -/
def undo_second_best (p : Position) : Position :=
  let bmove := p.banned_move.getD 0
  let p' := { p with banned_moves := updF p.banned_moves (p.num_moves + 1) none }
  p'.make_stone_move bmove

/-- `unmake_move`: undo a pending "Second Best!" if there is one,
otherwise unmake the last stone move. -/
def unmake_move (p : Position) : Position :=
  if p.banned_move.isSome then p.undo_second_best else p.unmake_stone_move

/-- `make_phase_one_move`: convenience placement used by the tests. -/
def make_phase_one_move (p : Position) (t : Nat) : Position :=
  p.make_stone_move (p.phase_one_stone_move t)

/-- `has_alignment`: the given side has three stones in one column, or
four consecutive top-of-stack stones (the walk over the doubled board
replaces the modular wrap-around). -/
def has_alignment (p : Position) (us : Bool) : Bool :=
  let player_stones := if us then p.our_spots else p.our_spots ^^^ p.played_spots
  if player_stones &&& wrap64 (player_stones <<< 1) &&& wrap64 (player_stones <<< 2) != 0 then
    true
  else
    let top_of_stacks := p.controlled_stacks us
    (List.range (NUM_STACKS + 4)).any fun k =>
      let mask := wrap64 (BOTTOM_FOUR <<< ((STACK_HEIGHT + 1) * k))
      mask == mask &&& top_of_stacks

end Position

/-- `BitboardMove`: either the retraction directive or a stone move
carried as its XOR-delta bitboard. -/
inductive BitboardMove where
  | SecondBest : BitboardMove
  | StoneMove : Bitboard → BitboardMove
deriving DecidableEq, Repr

/-- `PlayerMove`: the human-facing move form. -/
inductive PlayerMove where
  | SecondBest : PlayerMove
  | StoneMove : Option Nat → Nat → PlayerMove
deriving DecidableEq, Repr

/-- `MoveFailed`: the error taxonomy of `try_make_move` and parsing. -/
inductive MoveFailed where
  | MissingFromSpot
  | InvalidFromSpot
  | InvalidToSpot
  | MoveBanned
  | InvalidSecondBest
  | SameFromAndTo
  | ParseError
  | PositionWinning
deriving DecidableEq, Repr

namespace Position

/-- `try_make_move`: validate and play a `PlayerMove`, or report why it
is invalid.  Mirrors the check order of the source exactly. -/
def try_make_move (p : Position) (pmove : PlayerMove) :
    Except MoveFailed Position :=
  match pmove with
  | .SecondBest =>
      if ¬ p.can_second_best then .error .InvalidSecondBest
      else .ok p.second_best
  | .StoneMove f t =>
      if p.has_alignment false then .error .PositionWinning
      else if p.is_second_phase then
        match f with
        | none => .error .MissingFromSpot
        | some f =>
            if NUM_STACKS ≤ f then .error .InvalidFromSpot
            else if NUM_STACKS ≤ t then .error .InvalidToSpot
            else if t = f then .error .SameFromAndTo
            else if column_mask f &&& p.top_spots &&& p.our_spots = 0 then
              .error .InvalidFromSpot
            else if ¬ valid_adjacent f t ∨ p.free_spots &&& column_mask t = 0 then
              .error .InvalidToSpot
            else
              let smove := p.stone_move (some f) t
              if p.is_move_banned smove then .error .MoveBanned
              else .ok (p.make_stone_move smove)
      else
        if f.isSome then .error .InvalidFromSpot
        else if NUM_STACKS ≤ t then .error .InvalidToSpot
        else if p.free_spots &&& column_mask t = 0 then .error .InvalidToSpot
        else
          let smove := p.stone_move none t
          if p.is_move_banned smove then .error .MoveBanned
          else .ok (p.make_stone_move smove)

/-- `make_move`: unchecked move application used by the search. -/
def make_move (p : Position) (gmove : BitboardMove) : Position :=
  match gmove with
  | .SecondBest => p.second_best
  | .StoneMove smove => p.make_stone_move smove

end Position

/-- Stage of move generation (`movegen.rs`). -/
inductive Stage where
  | PvMove
  | SecondBest
  | VerticalAlignments
  | GoodToMoves
  | BadToMoves
deriving DecidableEq, Repr

/-- Which adjacent "from" source the second-phase generator tries next. -/
inductive Adjacent where
  | Left
  | Right
  | Opposite
deriving DecidableEq, Repr

/-- The `MoveGen` iterator state of `movegen.rs`. -/
structure MoveGen where
  alignment_spots : Bitboard
  good_to_spots : Bitboard
  bad_to_spots : Bitboard
  possible_from_spots : Bitboard
  banned_move : Option Bitboard
  second_phase : Bool
  stack_i : Nat
  adjacent_stage : Adjacent
  pv_move : Option BitboardMove
  can_second_best : Bool
  stage : Stage
deriving DecidableEq, Repr

/-- `MoveGen::new`: precompute the candidate "to" spots, removing the
banned move in the first phase, splitting off vertical-alignment spots,
and classifying the rest by whether we would stack on our own stone. -/
def MoveGen.new (pos : Position) (pv_move : Option BitboardMove) : MoveGen :=
  let banned_move := pos.banned_move
  let second_phase := pos.is_second_phase
  let free_to_spots := pos.free_spots
  let alignment_spots := pos.vertical_alignment_spots
  let (free_to_spots, alignment_spots) :=
    if ¬ second_phase then
      match banned_move with
      | some b => (free_to_spots &&& not64 b, alignment_spots &&& not64 b)
      | none => (free_to_spots, alignment_spots)
    else (free_to_spots, alignment_spots)
  let possible_from_spots := pos.from_spots true
  let free_to_spots := free_to_spots &&& not64 alignment_spots
  let bad_spots := wrap64 (possible_from_spots <<< 1)
  { alignment_spots := alignment_spots
    good_to_spots := free_to_spots &&& not64 bad_spots
    bad_to_spots := free_to_spots &&& bad_spots
    possible_from_spots := possible_from_spots
    banned_move := banned_move
    second_phase := second_phase
    stack_i := 0
    adjacent_stage := .Left
    pv_move := pv_move
    can_second_best := pos.can_second_best
    stage := .PvMove }

/-- Rank used only as a termination measure for the `next_stone_move`
scan (the Left/Right/Opposite cycle shrinks it). -/
def adjRank : Adjacent → Nat
  | .Left => 2
  | .Right => 1
  | .Opposite => 0

/-- One `while` loop of `MoveGen::next_stone_move`, with an explicit
iteration budget so that the recursion is structural (and hence
kernel-evaluable).  Every loop iteration strictly decreases
`3 * (NUM_STACKS - stack_i) + adjRank adjacent_stage ≤ 26`, so any
budget of at least 27 runs the loop to completion. -/
def MoveGen.next_stone_move_fuel :
    Nat → MoveGen → Bitboard → Option BitboardMove × MoveGen
  | 0, g, _ => (none, g)
  | fuel + 1, g, to_spots =>
    if g.stack_i < Position.NUM_STACKS then
      if ¬ g.second_phase then
        let candidate := Position.column_mask g.stack_i &&& to_spots
        let g' := { g with stack_i := g.stack_i + 1 }
        if candidate ≠ 0 then (some (.StoneMove candidate), g')
        else MoveGen.next_stone_move_fuel fuel g' to_spots
      else
        let tspot := Position.column_mask g.stack_i &&& to_spots
        if tspot = 0 then
          MoveGen.next_stone_move_fuel fuel { g with stack_i := g.stack_i + 1 }
            to_spots
        else
          let step :=
            match g.adjacent_stage with
            | .Left =>
                ({ g with adjacent_stage := .Right },
                  Position.column_mask (g.stack_i + Position.LEFT) &&&
                    g.possible_from_spots)
            | .Right =>
                ({ g with adjacent_stage := .Opposite },
                  Position.column_mask (g.stack_i + Position.RIGHT) &&&
                    g.possible_from_spots)
            | .Opposite =>
                ({ g with adjacent_stage := .Left, stack_i := g.stack_i + 1 },
                  Position.column_mask (g.stack_i + Position.OPPOSITE) &&&
                    g.possible_from_spots)
          let g' := step.1
          let fspot := step.2
          if fspot ≠ 0 then
            let candidate := tspot ||| fspot
            if g.banned_move = some candidate then
              MoveGen.next_stone_move_fuel fuel g' to_spots
            else if some (BitboardMove.StoneMove candidate) ≠ g.pv_move then
              (some (.StoneMove candidate), g')
            else MoveGen.next_stone_move_fuel fuel g' to_spots
          else MoveGen.next_stone_move_fuel fuel g' to_spots
    else (none, g)

/-- `MoveGen::next_stone_move`: scan the stacks for the next candidate
move towards `to_spots`.  The returned generator carries the mutated
cursor (`stack_i`, `adjacent_stage`), also when the scan is exhausted. -/
def MoveGen.next_stone_move (g : MoveGen) (to_spots : Bitboard) :
    Option BitboardMove × MoveGen :=
  MoveGen.next_stone_move_fuel 27 g to_spots

/-- Stage `BadToMoves` of `MoveGen::next`. -/
def MoveGen.nextBad (g : MoveGen) : Option (BitboardMove × MoveGen) :=
  match g.next_stone_move g.bad_to_spots with
  | (some m, g') => some (m, g')
  | (none, _) => none

/-- Stage `GoodToMoves` of `MoveGen::next`, falling through to the bad
moves when exhausted. -/
def MoveGen.nextGood (g : MoveGen) : Option (BitboardMove × MoveGen) :=
  if g.stage = .GoodToMoves then
    if g.good_to_spots ≠ 0 then
      match g.next_stone_move g.good_to_spots with
      | (some m, g') => some (m, g')
      | (none, g') => MoveGen.nextBad { g' with stack_i := 0, stage := .BadToMoves }
    else MoveGen.nextBad { g with stack_i := 0, stage := .BadToMoves }
  else MoveGen.nextBad g

/-- Stage `VerticalAlignments` of `MoveGen::next`. -/
def MoveGen.nextVertical (g : MoveGen) : Option (BitboardMove × MoveGen) :=
  if g.stage = .VerticalAlignments then
    if g.alignment_spots ≠ 0 then
      match g.next_stone_move g.alignment_spots with
      | (some m, g') => some (m, g')
      | (none, g') => MoveGen.nextGood { g' with stack_i := 0, stage := .GoodToMoves }
    else MoveGen.nextGood { g with stack_i := 0, stage := .GoodToMoves }
  else MoveGen.nextGood g

/-- Stage `SecondBest` of `MoveGen::next`: yield the retraction iff it
is available, then move on to the vertical alignments. -/
def MoveGen.nextSB (g : MoveGen) : Option (BitboardMove × MoveGen) :=
  if g.stage = .SecondBest then
    let g1 := { g with stage := Stage.VerticalAlignments }
    if g.can_second_best then some (.SecondBest, g1)
    else MoveGen.nextVertical g1
  else MoveGen.nextVertical g

/-- `MoveGen::next` (`Iterator::next`): the hint move is yielded first
and removed from the later stages; note that a `SecondBest` hint jumps
straight to `GoodToMoves`. -/
def MoveGen.next (g : MoveGen) : Option (BitboardMove × MoveGen) :=
  if g.stage = .PvMove then
    let g1 := { g with stage := Stage.SecondBest }
    match g.pv_move with
    | some pv =>
        match pv with
        | .SecondBest => some (pv, { g1 with stage := Stage.GoodToMoves })
        | .StoneMove smove =>
            let g2 :=
              if ¬ g.second_phase then
                { g1 with
                  alignment_spots := g1.alignment_spots &&& not64 smove
                  good_to_spots := g1.good_to_spots &&& not64 smove
                  bad_to_spots := g1.bad_to_spots &&& not64 smove }
              else g1
            some (pv, g2)
    | none => MoveGen.nextSB g1
  else MoveGen.nextSB g

/-- Drive the `MoveGen` iterator, collecting the yielded moves.  The
boolean is `true` iff `next` returned `None` within the given fuel, so a
`(moves, true)` result is the complete enumeration. -/
def runMoveGen : Nat → MoveGen → List BitboardMove × Bool
  | 0, _ => ([], false)
  | fuel + 1, g =>
      match g.next with
      | none => ([], true)
      | some (m, g') =>
          let r := runMoveGen fuel g'
          (m :: r.1, r.2)

namespace Eval

/-- `eval::WIN`. -/
def WIN : Int := 1000
/-- `eval::IS_WIN = WIN - 2 * MAX_MOVES`: scores above this are mate
scores for the winner. -/
def IS_WIN : Int := WIN - 2 * 255
/-- `eval::LOSS`. -/
def LOSS : Int := -WIN
/-- `eval::IS_LOSS`. -/
def IS_LOSS : Int := -IS_WIN

/-- `eval::ExplainableEval`. -/
inductive ExplainableEval where
  | Win : Int → ExplainableEval
  | Loss : Int → ExplainableEval
  | Undetermined : Int → ExplainableEval
deriving DecidableEq, Repr

/-- `eval::loss_score`. -/
def loss_score (ply : Int) : Int := LOSS + ply

/-- `eval::win_score`. -/
def win_score (ply : Int) : Int := WIN - ply

/-- `eval::decode_eval` (engine version, taking the evaluation and the
ply): classify an evaluation as a win, a loss, or undetermined. -/
def decode_eval (e ply : Int) : ExplainableEval :=
  if e < IS_LOSS then .Loss (e - LOSS - ply)
  else if IS_WIN < e then .Win (WIN - e - ply)
  else .Undetermined e

end Eval

namespace Position

/-- Modelled from the spec: the engine `Position` (its source file is
absent from this snapshot; only `transposition_table.rs` and the engine
solver call it) exposes `ply()`, the move counter of the position, by
which mate scores are shifted on store. -/
def ply (p : Position) : Nat := p.num_moves

/-- Modelled from the spec: the engine `Position` exposes
`last_stone_move()`, the stone move played last — `move_history` at the
current move counter — whose high bits carry the retraction context of
the TT key. -/
def last_stone_move (p : Position) : Option Bitboard :=
  p.move_history p.num_moves

end Position

/-- Rust `u64::trailing_zeros` (64 when the input is zero). -/
def trailing_zeros64 (n : Nat) : Nat :=
  (((List.range 64).find? fun i => n.testBit i)).getD 64

/-- `TTMove`: a move packed into 8 bits (bit 7 "Second Best!", bits 4-6
the "to" stack, bits 0-3 the "from" stack with 8 meaning none). -/
structure TTMove where
  val : Nat
deriving DecidableEq, Repr

namespace TTMove

/-- `TTMove::SECOND_BEST_BIT`. -/
def SECOND_BEST_BIT : Nat := 0x80

/-- `TTMove::from_bitboard_move`: split the XOR-delta into its "from"
top spot and "to" free spot and store the two stack indices (the
sentinel bit at 32 makes an absent "from" spot decode to stack 8). -/
def from_bitboard_move (pos : Position) (bmove : BitboardMove) : TTMove :=
  match bmove with
  | .SecondBest => ⟨SECOND_BEST_BIT⟩
  | .StoneMove smove =>
      let from_spot := smove &&& pos.from_spots true
      let to_spot := smove &&& pos.free_spots
      let from_spot := from_spot ||| (1 <<< 32)
      let from_stack := (trailing_zeros64 from_spot / 4) % 256
      let to_stack := (trailing_zeros64 to_spot / 4) % 256
      ⟨from_stack ||| ((to_stack <<< 4) % 256)⟩

end TTMove

/-- `EntryType` of a transposition-table entry. -/
inductive EntryType where
  | Undetermined
  | Exact
  | LowerBound
  | UpperBound
deriving DecidableEq, Repr

/-- A transposition-table `Entry` (the `i16` score is kept as an `Int`
already narrowed by the store's `as i16` cast). -/
structure Entry where
  score : Int
  best_move : TTMove
  entry_type : EntryType
  ply : Nat
deriving DecidableEq, Repr

namespace Entry

/-- `Entry::default()`. -/
def default : Entry := ⟨0, ⟨0⟩, .Undetermined, 0⟩

/-- `Entry::new`. -/
def new (pos : Position) (score : Int) (best_move : BitboardMove)
    (entry_type : EntryType) (ply : Nat) : Entry :=
  ⟨score, TTMove.from_bitboard_move pos best_move, entry_type, ply⟩

/-- `Entry::score(ply)`: mate evals are shifted back by the ply, other
scores returned verbatim. -/
def scoreAt (e : Entry) (ply : Int) : Int :=
  if Eval.IS_WIN ≤ e.score then e.score - ply
  else if e.score ≤ Eval.IS_LOSS then e.score + ply
  else e.score

end Entry

/-- Rust `as i16`: wrap an `isize` into the signed 16-bit range. -/
def toI16 (x : Int) : Int := (x + 32768) % 65536 - 32768

/-- The transposition table: two parallel arrays (modelled as index
functions) of entries and truncated 32-bit keys. -/
structure TranspositionTable where
  entries : Nat → Entry
  keys : Nat → Nat

namespace TranspositionTable

/-- `TranspositionTable::SIZE = next_prime(1 << 23)`: the least prime
not below `2^23` as the source's compile-time search computes it. -/
def SIZE : Nat := 8388617

/-- `TranspositionTable::default()`: empty entries, invalid keys. -/
def default : TranspositionTable :=
  { entries := fun _ => Entry.default, keys := fun _ => SIZE + 1 }

/-- `TranspositionTable::index`. -/
def index (key : Nat) : Nat := key % SIZE

/-- The `last_move_info` component of the key: the high 32 bits of the
last stone move (`smove & !0xFFFF_FFFF`), or 0 at the start. -/
def last_move_info (pos : Position) : Nat :=
  match pos.last_stone_move with
  | some smove => smove &&& not64 0xFFFFFFFF
  | none => 0

/-- The `second_best_info` component: bit 35 is set exactly when
"Second Best!" is NOT available. -/
def second_best_info (pos : Position) : Nat :=
  if pos.can_second_best then last_move_info pos
  else last_move_info pos ||| (1 <<< 35)

/-- The `pos_info` component: the low 32 bits of
`our_spots | free_spots`. -/
def pos_info (pos : Position) : Nat :=
  (pos.our_spots ||| pos.free_spots) &&& 0xFFFFFFFF

/-- `TranspositionTable::key`: the direct-encoding position key. -/
def key (pos : Position) : Nat :=
  second_best_info pos ||| pos_info pos

/-- The `let score = match decode_eval(score, ply) { … }` rescaling at
the top of `TranspositionTable::store`: mate scores are shifted by the
position's ply, other scores pass through. -/
def rescale_for_store (score P : Int) : Int :=
  match Eval.decode_eval score P with
  | .Undetermined _ => score
  | .Win _ => score + P
  | .Loss _ => score - P

/-- `TranspositionTable::store`: always-replace; mate scores are shifted
by the position's ply so the stored value is independent of the root
ply, then the score is narrowed with `as i16`. -/
def store (tt : TranspositionTable) (pos : Position) (score : Int)
    (best_move : BitboardMove) (entry_type : EntryType) (ply : Nat) :
    TranspositionTable :=
  let k := key pos
  let i := index k
  let score := rescale_for_store score (pos.ply : Int)
  { entries := fun j =>
      if j = i then Entry.new pos (toI16 score) best_move entry_type (ply % 256)
      else tt.entries j
    keys := fun j => if j = i then k % 2 ^ 32 else tt.keys j }

/-- `TranspositionTable::get`: return the entry iff the stored 32-bit
partial key matches. -/
def get (tt : TranspositionTable) (pos : Position) : Option Entry :=
  let k := key pos
  let i := index k
  if tt.keys i = k % 2 ^ 32 then some (tt.entries i) else none

end TranspositionTable

namespace Solver

/-- Depth passed to the recursive call for one move of the move loop of
`Solver::negamax` (`engine/src/solver.rs`; the match in `src/solver.rs`
is identical): "Second Best!" keeps the current depth, a stone move
recurses one shallower. -/
def next_depth (bmove : BitboardMove) (depth : Nat) : Nat :=
  match bmove with
  | .SecondBest => depth
  | .StoneMove _ => depth - 1

/-- The entry classification at the end of a negamax node
(`engine/src/solver.rs`): mate scores are graded against the initial
alpha/beta window; every other `best_score` is stored `Undetermined`. -/
def stored_entry_type (best_score ply initial_alpha initial_beta : Int) :
    EntryType :=
  match Eval.decode_eval best_score ply with
  | .Undetermined _ => .Undetermined
  | .Win _ =>
      if initial_beta ≤ best_score then .LowerBound
      else if best_score ≤ initial_alpha then .UpperBound
      else .Exact
  | .Loss _ =>
      if initial_beta ≤ best_score then .LowerBound
      else if best_score ≤ initial_alpha then .UpperBound
      else .Exact

end Solver

/-- Split a character list at every occurrence of `c` (keeping empty
pieces), the behaviour of Rust's `str::split(c)` and of Lean's
`String.split` — re-implemented structurally so that proofs can
evaluate it. -/
def splitCharAux (c : Char) : List Char → List Char → List (List Char)
  | [], acc => [acc.reverse]
  | ch :: rest, acc =>
      if ch = c then acc.reverse :: splitCharAux c rest []
      else splitCharAux c rest (ch :: acc)

/-- Split a string at every occurrence of `c` (Rust `split(c)`). -/
def splitOnChar (c : Char) (s : String) : List String :=
  (splitCharAux c s.data []).map String.mk

/-- Rust `str::parse::<usize>()` on the digit strings at hand: a
non-empty all-digit string parses to its value, anything else errors. -/
def parseNatAux : List Char → Nat → Option Nat
  | [], acc => some acc
  | ch :: rest, acc =>
      if ch.isDigit then parseNatAux rest (acc * 10 + (ch.toNat - 48))
      else none

/-- Parse a natural number the way `usize::from_str` does on the tokens
this program produces (empty or non-digit input fails). -/
def parseNat? (s : String) : Option Nat :=
  match s.data with
  | [] => none
  | l => parseNatAux l 0

/-- `PlayerMove::from`: parse one move token — "!", a stack digit, or
"from-to". -/
def PlayerMove.fromString (s : String) : Except MoveFailed PlayerMove :=
  if s = "!" then .ok .SecondBest
  else
    match splitOnChar '-' s with
    | [t] =>
        match parseNat? t with
        | some n => .ok (.StoneMove none n)
        | none => .error .ParseError
    | [f, t] =>
        match parseNat? f, parseNat? t with
        | some nf, some nt => .ok (.StoneMove (some nf) nt)
        | _, _ => .error .ParseError
    | _ => .error .ParseError

/-- `parse_and_play_moves`: parse each token and play it with
`try_make_move`, stopping at the first error. -/
def Position.parse_and_play_moves (p : Position) :
    List String → Except MoveFailed Position
  | [] => .ok p
  | s :: rest =>
      match PlayerMove.fromString s with
      | .error e => .error e
      | .ok m =>
          match p.try_make_move m with
          | .error e => .error e
          | .ok p' => p'.parse_and_play_moves rest

/-- `BitboardMove::column_of_bit` (the source is `unreachable!` when no
bit is set; the model returns 8, which no legal call produces). -/
def column_of_bit (bb : Bitboard) : Nat :=
  (((List.range Position.NUM_STACKS).find? fun col =>
      bb &&& Position.column_mask col != 0)).getD Position.NUM_STACKS

/-- `BitboardMove::to_player_move`: recover the stack indices of a stone
move from the board (the "from" end sits on a top spot, the "to" end on
a free spot). -/
def BitboardMove.to_player_move (bmove : BitboardMove) (pos : Position) :
    PlayerMove :=
  match bmove with
  | .SecondBest => .SecondBest
  | .StoneMove smove =>
      let from_spot := smove &&& pos.top_spots
      let f := if from_spot = 0 then none else some (column_of_bit from_spot)
      let to_spot := smove &&& pos.free_spots
      .StoneMove f (column_of_bit to_spot)

/-- `Display for PlayerMove`: "!", "t", or "f-t". -/
def PlayerMove.toDisplay : PlayerMove → String
  | .SecondBest => "!"
  | .StoneMove none t => Nat.repr t
  | .StoneMove (some f) t => Nat.repr f ++ "-" ++ Nat.repr t

/-- `Position::stone_move_to_string`. -/
def Position.stone_move_to_string (p : Position) (smove : Bitboard) : String :=
  ((BitboardMove.StoneMove smove).to_player_move p).toDisplay

/-- Loop body of `Position::serialize`: iterate `move_i` downwards,
unmaking a stone move each step and pushing its token (plus a "b !"
token when a ban was recorded at that ply). -/
def Position.serializeAux : Position → List Nat → List String → List String
  | _, [], acc => acc
  | p, i :: rest, acc =>
      let smove := (p.move_history (i + 1)).getD 0
      let p' := p.unmake_stone_move
      let acc := acc ++ [p'.stone_move_to_string smove]
      let acc :=
        match p'.banned_moves (i + 1) with
        | some b => acc ++ [p'.stone_move_to_string b ++ " !"]
        | none => acc
      Position.serializeAux p' rest acc

/-- `Position::serialize`: the space-joined move tokens of the game
leading to this position (documented as an "inverse" to
`parse_and_play_moves`). -/
def Position.serialize (p : Position) : String :=
  String.intercalate " "
    ((Position.serializeAux p (List.range p.num_moves).reverse []).reverse)

/-- Rust `split_whitespace`, as applied by every consumer of the
serializer output: split on spaces and drop empty tokens. -/
def splitWhitespace (s : String) : List String :=
  (splitOnChar ' ' s).filter fun t => t ≠ ""

/-- Observe only whether a `try_make_move` result is the
`PositionWinning` error (avoids comparing whole positions). -/
def isPositionWinningError : Except MoveFailed Position → Bool
  | .error .PositionWinning => true
  | _ => false

/-- The positions reachable from the empty board by the state-changing
operations under their stated preconditions: `make_stone_move` (any
delta — a superset of the legal stone moves, so every theorem below also
covers legal play), `second_best` when `can_second_best()`,
`undo_second_best` when a ban is pending, and `unmake_move` when there
is anything to unmake. -/
inductive Reachable : Position → Prop where
  | base : Reachable Position.default
  | stone (p : Position) (m : Bitboard) : Reachable p →
      Reachable (p.make_stone_move m)
  | sb (p : Position) : Reachable p → p.can_second_best = true →
      Reachable p.second_best
  | undoSb (p : Position) : Reachable p → p.banned_move.isSome →
      Reachable p.undo_second_best
  | unmake (p : Position) : Reachable p →
      p.banned_move.isSome ∨ 0 < p.num_moves → Reachable p.unmake_move

/-- Bookkeeping invariant of every reachable position: no ban is
recorded at or above slot `num_moves + 2`, the history is empty above
`num_moves` and filled from 1 up to `num_moves`. -/
def GoodSlots (p : Position) : Prop :=
  (∀ i, p.num_moves + 2 ≤ i → p.banned_moves i = none) ∧
  (∀ j, p.num_moves < j → p.move_history j = none) ∧
  (∀ j, 0 < j → j ≤ p.num_moves → (p.move_history j).isSome = true)

theorem updF_self (f : Nat → Option Bitboard) (i : Nat) (v : Option Bitboard) :
    updF f i v i = v := by
  simp [updF]

theorem updF_ne (f : Nat → Option Bitboard) (i j : Nat) (v : Option Bitboard)
    (h : j ≠ i) : updF f i v j = f j := by
  simp [updF, h]

theorem updF_id (f : Nat → Option Bitboard) (i : Nat) (v : Option Bitboard)
    (h : f i = v) : updF f i v = f := by
  funext j
  by_cases hj : j = i <;> simp [updF, hj, h]

theorem can_second_best_iff (p : Position) :
    p.can_second_best = true ↔
      0 < p.num_moves ∧ p.banned_moves p.num_moves = none ∧
        p.banned_moves (p.num_moves + 1) = none := by
  simp [Position.can_second_best, Bool.and_eq_true, decide_eq_true_eq,
    Option.isNone_iff_eq_none, and_assoc]

theorem goodSlots_default : GoodSlots Position.default := by
  refine ⟨fun i _ => rfl, fun j _ => rfl, fun j hj0 hj => ?_⟩
  have h0 : Position.default.num_moves = 0 := rfl
  rw [h0] at hj
  exact absurd hj0 (by omega)

theorem goodSlots_make_stone_move (p : Position) (m : Bitboard)
    (h : GoodSlots p) : GoodSlots (p.make_stone_move m) := by
  obtain ⟨hb, hh, hs⟩ := h
  refine ⟨?_, ?_, ?_⟩
  · intro i hi
    simp only [Position.make_stone_move] at hi ⊢
    exact hb i (by omega)
  · intro j hj
    simp only [Position.make_stone_move] at hj ⊢
    rw [updF_ne _ _ _ _ (by omega)]
    exact hh j (by omega)
  · intro j hj0 hj
    simp only [Position.make_stone_move] at hj ⊢
    by_cases hje : j = p.num_moves + 1
    · rw [hje, updF_self]
      rfl
    · rw [updF_ne _ _ _ _ hje]
      exact hs j hj0 (by omega)

theorem goodSlots_unmake_stone_move (p : Position) (hn : 0 < p.num_moves)
    (h : GoodSlots p) : GoodSlots p.unmake_stone_move := by
  obtain ⟨hb, hh, hs⟩ := h
  refine ⟨?_, ?_, ?_⟩
  · intro i hi
    simp only [Position.unmake_stone_move] at hi ⊢
    by_cases hie : i = p.num_moves + 1
    · rw [hie, updF_self]
    · rw [updF_ne _ _ _ _ hie]
      exact hb i (by omega)
  · intro j hj
    simp only [Position.unmake_stone_move] at hj ⊢
    by_cases hje : j = p.num_moves
    · rw [hje, updF_self]
    · rw [updF_ne _ _ _ _ hje]
      exact hh j (by omega)
  · intro j hj0 hj
    simp only [Position.unmake_stone_move] at hj ⊢
    rw [updF_ne _ _ _ _ (by omega)]
    exact hs j hj0 (by omega)

theorem goodSlots_second_best (p : Position) (hcsb : p.can_second_best = true)
    (h : GoodSlots p) : GoodSlots p.second_best := by
  obtain ⟨hn, hb1, hb2⟩ := (can_second_best_iff p).mp hcsb
  obtain ⟨hb, hh, hs⟩ := h
  have hnum : p.second_best.num_moves = p.num_moves - 1 := rfl
  refine ⟨?_, ?_, ?_⟩
  · intro i hi
    rw [hnum] at hi
    show updF (updF p.banned_moves (p.num_moves + 1) none) (p.num_moves - 1 + 1)
        (some ((p.move_history p.num_moves).getD 0)) i = none
    rw [updF_ne _ _ _ _ (by omega)]
    by_cases hie : i = p.num_moves + 1
    · rw [hie, updF_self]
    · rw [updF_ne _ _ _ _ hie]
      exact hb i (by omega)
  · intro j hj
    rw [hnum] at hj
    show updF p.move_history p.num_moves none j = none
    by_cases hje : j = p.num_moves
    · rw [hje, updF_self]
    · rw [updF_ne _ _ _ _ hje]
      exact hh j (by omega)
  · intro j hj0 hj
    rw [hnum] at hj
    show (updF p.move_history p.num_moves none j).isSome = true
    rw [updF_ne _ _ _ _ (by omega)]
    exact hs j hj0 (by omega)

theorem goodSlots_undo_second_best (p : Position)
    (h : GoodSlots p) : GoodSlots p.undo_second_best := by
  obtain ⟨hb, hh, hs⟩ := h
  refine ⟨?_, ?_, ?_⟩
  · intro i hi
    simp only [Position.undo_second_best, Position.make_stone_move] at hi ⊢
    rw [updF_ne _ _ _ _ (by omega)]
    exact hb i (by omega)
  · intro j hj
    simp only [Position.undo_second_best, Position.make_stone_move] at hj ⊢
    rw [updF_ne _ _ _ _ (by omega)]
    exact hh j (by omega)
  · intro j hj0 hj
    simp only [Position.undo_second_best, Position.make_stone_move] at hj ⊢
    by_cases hje : j = p.num_moves + 1
    · rw [hje, updF_self]
      rfl
    · rw [updF_ne _ _ _ _ hje]
      exact hs j hj0 (by omega)

theorem goodSlots_unmake_move (p : Position)
    (hpre : p.banned_move.isSome ∨ 0 < p.num_moves)
    (h : GoodSlots p) : GoodSlots p.unmake_move := by
  by_cases hbm : p.banned_move.isSome
  · rw [Position.unmake_move, if_pos hbm]
    exact goodSlots_undo_second_best p h
  · rw [Position.unmake_move, if_neg hbm]
    exact goodSlots_unmake_stone_move p (by tauto) h

theorem reachable_goodSlots {p : Position} (h : Reachable p) : GoodSlots p := by
  induction h with
  | base => exact goodSlots_default
  | stone q m _ ih => exact goodSlots_make_stone_move q m ih
  | sb q _ hcsb ih => exact goodSlots_second_best q hcsb ih
  | undoSb q _ _ ih => exact goodSlots_undo_second_best q ih
  | unmake q _ hpre ih => exact goodSlots_unmake_move q hpre ih

theorem mk_played (p : Position) (m : Bitboard) :
    (p.make_stone_move m).played_spots = p.played_spots ^^^ m := rfl

theorem mk_our (p : Position) (m : Bitboard) :
    (p.make_stone_move m).our_spots = p.our_spots ^^^ p.played_spots := rfl

theorem mk_num (p : Position) (m : Bitboard) :
    (p.make_stone_move m).num_moves = p.num_moves + 1 := rfl

theorem mk_history (p : Position) (m : Bitboard) :
    (p.make_stone_move m).move_history =
      updF p.move_history (p.num_moves + 1) (some m) := rfl

theorem mk_banned (p : Position) (m : Bitboard) :
    (p.make_stone_move m).banned_moves = p.banned_moves := rfl

theorem unm_played (p : Position) :
    p.unmake_stone_move.played_spots =
      p.played_spots ^^^ (p.move_history p.num_moves).getD 0 := rfl

theorem unm_our (p : Position) :
    p.unmake_stone_move.our_spots =
      p.our_spots ^^^ (p.played_spots ^^^ (p.move_history p.num_moves).getD 0) := rfl

theorem unm_num (p : Position) :
    p.unmake_stone_move.num_moves = p.num_moves - 1 := rfl

theorem unm_history (p : Position) :
    p.unmake_stone_move.move_history = updF p.move_history p.num_moves none := rfl

theorem unm_banned (p : Position) :
    p.unmake_stone_move.banned_moves =
      updF p.banned_moves (p.num_moves + 1) none := rfl

theorem sb_played (p : Position) :
    p.second_best.played_spots =
      p.played_spots ^^^ (p.move_history p.num_moves).getD 0 := rfl

theorem sb_our (p : Position) :
    p.second_best.our_spots =
      p.our_spots ^^^ (p.played_spots ^^^ (p.move_history p.num_moves).getD 0) := rfl

theorem sb_num (p : Position) : p.second_best.num_moves = p.num_moves - 1 := rfl

theorem sb_history (p : Position) :
    p.second_best.move_history = updF p.move_history p.num_moves none := rfl

theorem sb_banned (p : Position) :
    p.second_best.banned_moves =
      updF (updF p.banned_moves (p.num_moves + 1) none) (p.num_moves - 1 + 1)
        (some ((p.move_history p.num_moves).getD 0)) := rfl

theorem undo_played (p : Position) :
    p.undo_second_best.played_spots =
      p.played_spots ^^^ p.banned_move.getD 0 := rfl

theorem undo_our (p : Position) :
    p.undo_second_best.our_spots = p.our_spots ^^^ p.played_spots := rfl

theorem undo_num (p : Position) :
    p.undo_second_best.num_moves = p.num_moves + 1 := rfl

theorem undo_history (p : Position) :
    p.undo_second_best.move_history =
      updF p.move_history (p.num_moves + 1) (some (p.banned_move.getD 0)) := rfl

theorem undo_banned (p : Position) :
    p.undo_second_best.banned_moves =
      updF p.banned_moves (p.num_moves + 1) none := rfl

/-- C2: on a reachable position, making any stone move and unmaking it
restores the position bit-exactly (all five fields), and — whenever
"Second Best!" is available — `second_best` followed by
`undo_second_best` likewise restores it exactly. -/
theorem make_unmake_roundtrip (p : Position) (hre : Reachable p) :
    (∀ m : Bitboard, (p.make_stone_move m).unmake_stone_move = p) ∧
    (p.can_second_best = true → p.second_best.undo_second_best = p) := by
  obtain ⟨hb, hh, hs⟩ := reachable_goodSlots hre
  constructor
  · intro m
    have hq : (p.make_stone_move m).move_history (p.make_stone_move m).num_moves
        = some m := by
      rw [mk_history, mk_num, updF_self]
    apply Position.ext
    · rw [unm_played, hq, Option.getD_some, mk_played, Nat.xor_assoc,
        Nat.xor_self, Nat.xor_zero]
    · rw [unm_our, hq, Option.getD_some, mk_our, mk_played,
        Nat.xor_assoc p.played_spots m m, Nat.xor_self, Nat.xor_zero,
        Nat.xor_assoc, Nat.xor_self, Nat.xor_zero]
    · rw [unm_num, mk_num]
      omega
    · rw [unm_history, mk_history, mk_num]
      funext j
      by_cases hj : j = p.num_moves + 1
      · rw [hj, updF_self]
        exact (hh _ (by omega)).symm
      · rw [updF_ne _ _ _ _ hj, updF_ne _ _ _ _ hj]
    · rw [unm_banned, mk_banned, mk_num]
      exact updF_id _ _ _ (hb _ (by omega))
  · intro hcsb
    obtain ⟨hn, hbn, hbn1⟩ := (can_second_best_iff p).mp hcsb
    have hn1 : p.num_moves - 1 + 1 = p.num_moves := by omega
    have hhist : p.move_history p.num_moves =
        some ((p.move_history p.num_moves).getD 0) := by
      rcases hx : p.move_history p.num_moves with _ | v
      · have := hs p.num_moves hn (le_refl _)
        rw [hx] at this
        simp at this
      · simp
    have hbm : p.second_best.banned_move =
        some ((p.move_history p.num_moves).getD 0) := by
      rw [Position.banned_move, sb_banned, sb_num, hn1, updF_self]
    apply Position.ext
    · rw [undo_played, hbm, Option.getD_some, sb_played, Nat.xor_assoc,
        Nat.xor_self, Nat.xor_zero]
    · rw [undo_our, sb_our, sb_played, Nat.xor_assoc, Nat.xor_self, Nat.xor_zero]
    · rw [undo_num, sb_num, hn1]
    · rw [undo_history, hbm, Option.getD_some, sb_history, sb_num, hn1]
      funext j
      by_cases hj : j = p.num_moves
      · rw [hj, updF_self]
        exact hhist.symm
      · rw [updF_ne _ _ _ _ hj, updF_ne _ _ _ _ hj]
    · rw [undo_banned, sb_banned, sb_num, hn1]
      funext j
      by_cases hj : j = p.num_moves
      · rw [hj, updF_self]
        exact hbn.symm
      · rw [updF_ne _ _ _ _ hj, updF_ne _ _ _ _ hj]
        by_cases hj1 : j = p.num_moves + 1
        · rw [hj1, updF_self]
          exact hbn1.symm
        · rw [updF_ne _ _ _ _ hj1]

/-- Witness for C2 at the reachable position after placing on stack 0:
the arbitrary delta 34 round-trips, and the available "Second Best!"
round-trips. -/
theorem make_unmake_roundtrip_witness :
    ((Position.default.make_phase_one_move 0).make_stone_move 34).unmake_stone_move
        = Position.default.make_phase_one_move 0 ∧
    ((Position.default.make_phase_one_move 0).second_best).undo_second_best
        = Position.default.make_phase_one_move 0 :=
  ⟨(make_unmake_roundtrip _ (Reachable.stone _ _ Reachable.base)).1 34,
    (make_unmake_roundtrip _ (Reachable.stone _ _ Reachable.base)).2 (by decide)⟩

/-- C9 (amended): in every reachable position no ban is recorded at slot
`num_moves + 2` (so at most one of slots `num_moves + 1`,
`num_moves + 2` is set), and whenever a ban is pending at
`num_moves + 1` the retraction is unavailable — a "Second Best!" can
never be called on top of a "Second Best!".  (The claim's stronger
statement about slots `num_moves` and `num_moves + 1` is refuted by the
counterexample.) -/
theorem banned_slots_invariant (p : Position) (hre : Reachable p) :
    p.banned_moves (p.num_moves + 2) = none ∧
    ((p.banned_moves (p.num_moves + 1)).isSome = true →
      p.can_second_best = false) := by
  obtain ⟨hb, _, _⟩ := reachable_goodSlots hre
  refine ⟨hb _ (le_refl _), fun hsome => ?_⟩
  rw [Position.can_second_best]
  rcases hx : p.banned_moves (p.num_moves + 1) with _ | v
  · rw [hx] at hsome
    simp at hsome
  · simp [hx]

/-- Witness for C9 at the reachable position after `0 !`: a ban is
pending there, so the second conjunct fires with a true hypothesis. -/
theorem banned_slots_invariant_witness :
    ((Position.default.make_phase_one_move 0).second_best).banned_moves
        ((((Position.default.make_phase_one_move 0).second_best).num_moves) + 2)
        = none ∧
    ((((Position.default.make_phase_one_move 0).second_best).banned_moves
        ((((Position.default.make_phase_one_move 0).second_best).num_moves) + 1)).isSome
          = true →
      ((Position.default.make_phase_one_move 0).second_best).can_second_best
        = false) :=
  banned_slots_invariant _
    (Reachable.sb _ (Reachable.stone _ _ Reachable.base) (by decide))

/-- Counterexample to C9 as stated: after the legal move sequence
`0 ! 1 2 !` (every step accepted by `try_make_move`, final position has
`num_moves = 1`) BOTH `banned_moves[num_moves]` (slot 1, left over from
the first "Second Best!") and `banned_moves[num_moves + 1]` (slot 2,
the pending second "Second Best!") are set. -/
theorem double_ban_reachable :
    (Position.default.parse_and_play_moves ["0", "!", "1", "2", "!"]).toOption.map
        (fun q =>
          ((q.banned_moves q.num_moves).isSome,
            (q.banned_moves (q.num_moves + 1)).isSome)) =
      some (true, true) := by decide

theorem IS_WIN_eq : Eval.IS_WIN = 490 := by decide

theorem IS_LOSS_eq : Eval.IS_LOSS = -490 := by decide

theorem stored_entry_type_eq (bs ply a b : Int) :
    Solver.stored_entry_type bs ply a b =
      if bs < Eval.IS_LOSS ∨ Eval.IS_WIN < bs then
        if b ≤ bs then EntryType.LowerBound
        else if bs ≤ a then EntryType.UpperBound
        else EntryType.Exact
      else EntryType.Undetermined := by
  unfold Solver.stored_entry_type Eval.decode_eval
  by_cases h1 : bs < Eval.IS_LOSS
  · rw [if_pos h1, if_pos (Or.inl h1)]
  · rw [if_neg h1]
    by_cases h2 : Eval.IS_WIN < bs
    · rw [if_pos h2, if_pos (Or.inr h2)]
    · rw [if_neg h2,
        if_neg (show ¬(bs < Eval.IS_LOSS ∨ Eval.IS_WIN < bs) from by tauto)]

/-- C3: in the negamax move loop a "Second Best!" move recurses with the
same depth as the current node, while every stone move recurses with
depth − 1 (`next_depth` in `engine/src/solver.rs`; the inline match of
`src/solver.rs` passes the same depths). -/
theorem negamax_depth_convention (depth : Nat) :
    Solver.next_depth BitboardMove.SecondBest depth = depth ∧
    ∀ bb : Bitboard, Solver.next_depth (BitboardMove.StoneMove bb) depth = depth - 1 :=
  ⟨rfl, fun _ => rfl⟩

/-- C10: `unmake_move` undoes a pending "Second Best!" when a banned
move is pending — clearing the ban slot and re-playing the banned stone
move — and otherwise unmakes the last stone move (decrementing the move
counter and reverting the last XOR-delta). -/
theorem unmake_move_dispatch (p : Position) :
    (∀ bmove, p.banned_move = some bmove →
      p.unmake_move =
        ({ p with banned_moves := updF p.banned_moves (p.num_moves + 1) none
            } : Position).make_stone_move bmove) ∧
    (p.banned_move = none → 0 < p.num_moves →
      p.unmake_move = p.unmake_stone_move ∧
      p.unmake_stone_move.num_moves = p.num_moves - 1 ∧
      p.unmake_stone_move.played_spots =
        p.played_spots ^^^ (p.move_history p.num_moves).getD 0) := by
  constructor
  · intro bmove hb
    rw [Position.unmake_move, if_pos (by simp [hb]), Position.undo_second_best, hb]
    rfl
  · intro hb _
    refine ⟨?_, rfl, rfl⟩
    rw [Position.unmake_move, if_neg (by simp [hb])]

/-- Witness for C10 at two concrete positions: after the moves `0 !` a
ban is pending and `unmake_move` replays the banned stone placement
(bitboard `1 + 2^32`, the two copies of stack 0's bottom spot); after
the single move `0` there is no pending ban and `unmake_move` unmakes
the stone move. -/
theorem unmake_move_dispatch_witness :
    ((Position.default.make_phase_one_move 0).second_best).unmake_move =
      ({ (Position.default.make_phase_one_move 0).second_best with
          banned_moves :=
            updF ((Position.default.make_phase_one_move 0).second_best).banned_moves
              (((Position.default.make_phase_one_move 0).second_best).num_moves + 1)
              none } : Position).make_stone_move 4294967297 ∧
    (Position.default.make_phase_one_move 0).unmake_move =
      (Position.default.make_phase_one_move 0).unmake_stone_move :=
  ⟨(unmake_move_dispatch _).1 4294967297 (by decide),
    ((unmake_move_dispatch _).2 (by decide) (by decide)).1⟩

/-- C8 (amended): at the end of a negamax node the stored entry type is
three-way graded against the initial window only for mate scores
(`decode_eval` Win/Loss): `LowerBound` when `best_score ≥ initial_beta`,
`UpperBound` when it is `≤ initial_alpha`, `Exact` otherwise; every
non-mate `best_score` is stored as `Undetermined` instead. -/
theorem stored_entry_type_classification (bs ply a b : Int) :
    ((Eval.IS_LOSS ≤ bs ∧ bs ≤ Eval.IS_WIN) →
      Solver.stored_entry_type bs ply a b = EntryType.Undetermined) ∧
    ((bs < Eval.IS_LOSS ∨ Eval.IS_WIN < bs) →
      (b ≤ bs → Solver.stored_entry_type bs ply a b = EntryType.LowerBound) ∧
      (bs < b → bs ≤ a →
        Solver.stored_entry_type bs ply a b = EntryType.UpperBound) ∧
      (bs < b → a < bs →
        Solver.stored_entry_type bs ply a b = EntryType.Exact)) := by
  rw [stored_entry_type_eq]
  constructor
  · rintro ⟨h1, h2⟩
    rw [if_neg (by omega)]
  · intro h
    refine ⟨fun h1 => ?_, fun h1 h2 => ?_, fun h1 h2 => ?_⟩
    · rw [if_pos h, if_pos h1]
    · rw [if_pos h, if_neg (by omega), if_pos h2]
    · rw [if_pos h, if_neg (by omega), if_neg (by omega)]

/-- Witness for C8 at concrete inputs: a mate score of 600 inside the
root window `(-1000, 1000)` is stored `Exact`. -/
theorem stored_entry_type_classification_witness :
    Solver.stored_entry_type 600 0 (-1000) 1000 = EntryType.Exact :=
  ((stored_entry_type_classification 600 0 (-1000) 1000).2
    (by decide)).2.2 (by decide) (by decide)

/-- Counterexample to C8 as stated: a non-mate `best_score` of 0 inside
the root window is stored as `Undetermined`, which is none of `Exact`,
`LowerBound`, `UpperBound`. -/
theorem stored_entry_type_not_three_way :
    Solver.stored_entry_type 0 0 (-1000) 1000 = EntryType.Undetermined ∧
    EntryType.Undetermined ≠ EntryType.Exact ∧
    EntryType.Undetermined ≠ EntryType.LowerBound ∧
    EntryType.Undetermined ≠ EntryType.UpperBound := by
  refine ⟨?_, by decide, by decide, by decide⟩
  rw [stored_entry_type_eq]
  rw [if_neg (by rw [IS_WIN_eq, IS_LOSS_eq]; omega)]

theorem last_move_info_low (p : Position) (i : Nat) (hi : i < 32) :
    (TranspositionTable.last_move_info p).testBit i = false := by
  unfold TranspositionTable.last_move_info
  cases p.last_stone_move with
  | none => simp
  | some sm =>
      rw [Nat.testBit_land,
        show not64 0xFFFFFFFF = 0xFFFFFFFF <<< 32 from by decide,
        Nat.testBit_shiftLeft]
      simp [show ¬ (32 ≤ i) from by omega]

theorem pos_info_high (p : Position) (i : Nat) (hi : 32 ≤ i) :
    (TranspositionTable.pos_info p).testBit i = false := by
  unfold TranspositionTable.pos_info
  rw [Nat.testBit_land, show (0xFFFFFFFF : Nat) = 2 ^ 32 - 1 from by decide,
    Nat.testBit_two_pow_sub_one]
  simp [show ¬ (i < 32) from by omega]

theorem second_best_info_low (p : Position) (i : Nat) (hi : i < 32) :
    (TranspositionTable.second_best_info p).testBit i = false := by
  unfold TranspositionTable.second_best_info
  cases hc : p.can_second_best
  · rw [if_neg (by simp [hc]), Nat.testBit_lor, last_move_info_low p i hi,
      Nat.testBit_shiftLeft]
    simp [show ¬ (35 ≤ i) from by omega]
  · rw [if_pos (by simp [hc])]
    exact last_move_info_low p i hi

theorem key_testBit_35 (p : Position)
    (hp : (TranspositionTable.last_move_info p).testBit 35 = false) :
    (TranspositionTable.key p).testBit 35 = !p.can_second_best := by
  unfold TranspositionTable.key
  rw [Nat.testBit_lor, pos_info_high p 35 (by omega), Bool.or_false]
  unfold TranspositionTable.second_best_info
  cases hc : p.can_second_best
  · rw [if_neg (by simp [hc]), Nat.testBit_lor, hp, Bool.false_or,
      show ((1:Nat) <<< 35).testBit 35 = true from by decide]
    rfl
  · rw [if_pos (by simp [hc]), hp]
    rfl

/-- C6 (amended): the TT key packs `our_spots | free_spots` (NOT
`played_spots | our_spots`) into the low 32 bits, the high (above-32)
bits of the last stone move, and bit 35 set exactly when
`can_second_best()` is FALSE; consequently any two positions whose last
stone moves do not touch bit 35 (true of every move bitboard, which
holds only column data bits) but whose retraction possibilities differ
receive different keys. -/
theorem key_structure (p q : Position)
    (hp : (TranspositionTable.last_move_info p).testBit 35 = false)
    (hq : (TranspositionTable.last_move_info q).testBit 35 = false) :
    TranspositionTable.key p % 2 ^ 32 = (p.our_spots ||| p.free_spots) % 2 ^ 32 ∧
    (TranspositionTable.key p).testBit 35 = !p.can_second_best ∧
    (p.can_second_best ≠ q.can_second_best →
      TranspositionTable.key p ≠ TranspositionTable.key q) := by
  refine ⟨?_, key_testBit_35 p hp, ?_⟩
  · apply Nat.eq_of_testBit_eq
    intro i
    rw [Nat.testBit_mod_two_pow, Nat.testBit_mod_two_pow]
    by_cases hi : i < 32
    · have h1 : (TranspositionTable.key p).testBit i =
          (TranspositionTable.pos_info p).testBit i := by
        unfold TranspositionTable.key
        rw [Nat.testBit_lor, second_best_info_low p i hi, Bool.false_or]
      have h2 : (TranspositionTable.pos_info p).testBit i =
          (p.our_spots ||| p.free_spots).testBit i := by
        unfold TranspositionTable.pos_info
        rw [Nat.testBit_land, show (0xFFFFFFFF : Nat) = 2 ^ 32 - 1 from by decide,
          Nat.testBit_two_pow_sub_one]
        simp [hi]
      simp [hi, h1, h2]
    · simp [hi]
  · intro hne heq
    apply hne
    have h35 := key_testBit_35 p hp
    have h35q := key_testBit_35 q hq
    rw [heq, h35q] at h35
    exact (Bool.not_inj h35).symm

/-- Witness for C6: the position after one placement on stack 0 can
retract, the empty position cannot, and their keys differ. -/
theorem key_structure_witness :
    TranspositionTable.key (Position.default.make_phase_one_move 0) ≠
      TranspositionTable.key Position.default :=
  (key_structure (Position.default.make_phase_one_move 0) Position.default
      (by decide) (by decide)).2.2 (by decide)

/-- Counterexample to C6 as stated: after one placement on stack 0 the
low 32 bits of the key (built from `our_spots | free_spots`) do not
agree with `played_spots | our_spots` restricted to the low 32 bits. -/
theorem key_low_bits_differ_from_claim :
    TranspositionTable.key (Position.default.make_phase_one_move 0) % 2 ^ 32 ≠
      ((Position.default.make_phase_one_move 0).played_spots |||
        (Position.default.make_phase_one_move 0).our_spots) % 2 ^ 32 := by decide

theorem toI16_eq_self (x : Int) (h1 : -32768 ≤ x) (h2 : x < 32768) :
    toI16 x = x := by
  unfold toI16
  omega

theorem rescale_eq (s P : Int) :
    TranspositionTable.rescale_for_store s P =
      if s < Eval.IS_LOSS then s - P
      else if Eval.IS_WIN < s then s + P
      else s := by
  unfold TranspositionTable.rescale_for_store Eval.decode_eval
  by_cases h1 : s < Eval.IS_LOSS
  · rw [if_pos h1, if_pos h1]
  · rw [if_neg h1, if_neg h1]
    by_cases h2 : Eval.IS_WIN < s
    · rw [if_pos h2, if_pos h2]
    · rw [if_neg h2, if_neg h2]

theorem get_store (tt : TranspositionTable) (pos : Position) (s : Int)
    (mv : BitboardMove) (et : EntryType) (pl : Nat) :
    (tt.store pos s mv et pl).get pos =
      some (Entry.new pos
        (toI16 (TranspositionTable.rescale_for_store s (pos.ply : Int)))
        mv et (pl % 256)) := by
  unfold TranspositionTable.store TranspositionTable.get
  simp

/-- C7 (amended): storing a score `s` in the engine's evaluation range
at a position of ply `p ≤ 255` and reading it back at the same ply
returns `s` — mate scores (beyond the thresholds ±490) are shifted by
`p` on store and shifted back on read, scores strictly between the
thresholds pass verbatim — PROVIDED `s` is not exactly one of the two
thresholds `IS_WIN = 490` / `IS_LOSS = -490` (at those boundary values
the store treats the score as non-mate but the read treats it as mate,
and the round trip fails; see the counterexample). -/
theorem tt_store_get_score_roundtrip (tt : TranspositionTable) (pos : Position)
    (s : Int) (mv : BitboardMove) (et : EntryType) (plyArg : Nat)
    (hlo : Eval.LOSS ≤ s) (hhi : s ≤ Eval.WIN) (hply : pos.ply ≤ 255)
    (hw : s ≠ Eval.IS_WIN) (hl : s ≠ Eval.IS_LOSS) :
    ((tt.store pos s mv et plyArg).get pos).map
        (fun e => e.scoreAt (pos.ply : Int)) = some s := by
  have h0 : (0:Int) ≤ (pos.ply : Int) := Int.natCast_nonneg _
  have h255 : ((pos.ply : Int)) ≤ 255 := by exact_mod_cast hply
  rw [IS_WIN_eq] at hw
  rw [IS_LOSS_eq] at hl
  rw [show Eval.LOSS = -1000 from by decide] at hlo
  rw [show Eval.WIN = 1000 from rfl] at hhi
  rw [get_store, rescale_eq, IS_WIN_eq, IS_LOSS_eq]
  by_cases hs1 : s < -490
  · rw [if_pos hs1, toI16_eq_self _ (by omega) (by omega)]
    simp only [Option.map_some', Entry.scoreAt, Entry.new]
    rw [IS_WIN_eq, IS_LOSS_eq, if_neg (by omega), if_pos (by omega),
      Int.sub_add_cancel]
  · by_cases hs2 : 490 < s
    · rw [if_neg hs1, if_pos hs2, toI16_eq_self _ (by omega) (by omega)]
      simp only [Option.map_some', Entry.scoreAt, Entry.new]
      rw [IS_WIN_eq, IS_LOSS_eq, if_pos (by omega), Int.add_sub_cancel]
    · rw [if_neg hs1, if_neg hs2, toI16_eq_self _ (by omega) (by omega)]
      simp only [Option.map_some', Entry.scoreAt, Entry.new]
      rw [IS_WIN_eq, IS_LOSS_eq, if_neg (by omega), if_neg (by omega)]

/-- Witness for C7: the mate score 777 stored at the ply-1 position
after one placement reads back as 777. -/
theorem tt_store_get_score_roundtrip_witness :
    ((TranspositionTable.default.store (Position.default.make_phase_one_move 0)
        777 BitboardMove.SecondBest EntryType.Exact 3).get
          (Position.default.make_phase_one_move 0)).map
        (fun e => e.scoreAt (((Position.default.make_phase_one_move 0).ply : Int)))
      = some 777 :=
  tt_store_get_score_roundtrip _ _ _ _ _ _ (by decide) (by decide) (by decide)
    (by decide) (by decide)

/-- Counterexample to C7 as stated: the boundary score 490 (= `IS_WIN`)
stored at the ply-1 position after one placement is stored verbatim
(`decode_eval` calls it undetermined) but read back shifted
(`Entry::score` uses `>= IS_WIN`), returning 489, not 490. -/
theorem tt_score_boundary_not_roundtrip :
    ((TranspositionTable.default.store (Position.default.make_phase_one_move 0)
        490 BitboardMove.SecondBest EntryType.Exact 0).get
          (Position.default.make_phase_one_move 0)).map
        (fun e => e.scoreAt (((Position.default.make_phase_one_move 0).ply : Int)))
      ≠ some 490 := by decide

/-- C5 (amended): `try_make_move` on a stone `PlayerMove` returns
`Err(PositionWinning)` exactly when the opponent has an alignment —
independently of whether "Second Best!" is still available (the check
`has_alignment(false)` comes first and is unconditional). -/
theorem try_stone_positionWinning_iff (p : Position) (f : Option Nat) (t : Nat) :
    isPositionWinningError (p.try_make_move (PlayerMove.StoneMove f t)) =
      p.has_alignment false := by
  unfold Position.try_make_move
  cases hal : p.has_alignment false
  · simp only [hal, Bool.false_eq_true, if_false]
    repeat' split
    all_goals simp [isPositionWinningError]
  · simp [hal, isPositionWinningError]

/-- Counterexample to C5 as stated: after the legal sequence
`1 2 1 2 1` the opponent (Black) has a vertical alignment while
"Second Best!" is still available, yet `try_make_move` on a stone move
returns `PositionWinning` — the claim says the error should then not be
`PositionWinning`. -/
theorem positionWinning_despite_retraction :
    (Position.default.parse_and_play_moves ["1", "2", "1", "2", "1"]).toOption.map
        (fun p =>
          (p.can_second_best, p.has_alignment false,
            isPositionWinningError (p.try_make_move (PlayerMove.StoneMove none 0))))
      = some (true, true, true) := by decide

/-- C1 code bug, evaluated: at the reachable position after `0 1 0 1`
(Black to move, two Black stones on stack 0) with hint `SecondBest`,
the generator terminates (completion flag true) without ever yielding
the legal winning placement on stack 0: the `SecondBest` hint sets the
stage to `GoodToMoves`, skipping the `VerticalAlignments` stage holding
that move.  Without a hint the same position does yield it, and
`try_make_move` accepts it. -/
theorem movegen_sb_hint_skips_alignment_move :
    (Position.default.parse_and_play_moves ["0", "1", "0", "1"]).toOption.map
        (fun p =>
          ((runMoveGen 100 (MoveGen.new p (some BitboardMove.SecondBest))).2,
            decide (BitboardMove.StoneMove (p.stone_move none 0) ∈
              (runMoveGen 100 (MoveGen.new p (some BitboardMove.SecondBest))).1),
            decide (BitboardMove.StoneMove (p.stone_move none 0) ∈
              (runMoveGen 100 (MoveGen.new p none)).1),
            (p.try_make_move (PlayerMove.StoneMove none 0)).toOption.isSome))
      = some (true, false, true, true) := by decide

/-- C4 code bug, evaluated: the reachable position after `0 !` has a
pending banned move in slot 1, yet `serialize` emits the empty string —
its loop runs `move_i` over `0..num_moves` (here empty) and never
reaches the pending slot `num_moves + 1` — and replaying that output
from the empty position yields a position without the ban, so
parse ∘ serialize loses `banned_moves`. -/
theorem serialize_drops_pending_ban :
    (Position.default.parse_and_play_moves ["0", "!"]).toOption.map
        (fun p => (p.serialize, (p.banned_moves 1).isSome)) =
      some ("", true) ∧
    (Position.default.parse_and_play_moves (splitWhitespace "")).toOption.map
        (fun q => (q.banned_moves 1).isSome) = some false := by decide

end SecondBest
